import Mathlib

/-!
Verification development for the SaaS competitor scraping tool
(`scraper.py`, `extractors.py`, `database.py`).

The Python source is shallowly embedded: pure fragments become Lean
functions, the SQLite-backed store becomes an explicit record of lists
that the orchestration functions thread through, and machine-level
details (UTF-8 bytes, 32-bit words inside SHA-256) are `Nat` with
explicit `% 2^32` masking.  Python strings are Lean `String`s (both are
sequences of Unicode code points, so Python slicing `s[:n]` is `take`
on the character data).  Python `None`-able strings are `Option String`,
and Python truthiness of such a value is "present and non-empty".
-/

namespace Scrape

/-! ## JSON values and canonical serialization

`scrape_page` computes `json.dumps(structured, sort_keys=True,
ensure_ascii=False)` and hashes it.  `Json` models the Python values
that can appear there (None / bool / int / str / list / dict). -/

inductive Json where
  | null : Json
  | bool (b : Bool) : Json
  | num (n : Int) : Json
  | str (s : String) : Json
  | arr (elems : List Json) : Json
  | obj (fields : List (String × Json)) : Json

/-- Key-wise ordering of object fields, the order `sort_keys=True` uses
(Python compares `str` keys by code points; Mathlib's `String`
linear order is the same code-point lexicographic order). -/
def keyLe (a b : String × Json) : Prop := a.1 ≤ b.1

instance : DecidableRel keyLe := fun a b => inferInstanceAs (Decidable (a.1 ≤ b.1))

instance keyLeIsTotal : IsTotal (String × Json) keyLe := ⟨fun a b => le_total a.1 b.1⟩

instance keyLeIsTrans : IsTrans (String × Json) keyLe :=
  ⟨fun _ _ _ hab hbc => le_trans hab hbc⟩

mutual
/-- Sort every object's fields by key, recursively.  `json.dumps` with
`sort_keys=True` serializes each dictionary with its keys sorted, which
is the same as canonicalizing first and then serializing in field
order. -/
def Json.canon : Json → Json
  | .null => .null
  | .bool b => .bool b
  | .num n => .num n
  | .str s => .str s
  | .arr elems => .arr (Json.canonList elems)
  | .obj fields => .obj (List.insertionSort keyLe (Json.canonFields fields))

def Json.canonList : List Json → List Json
  | [] => []
  | j :: js => Json.canon j :: Json.canonList js

def Json.canonFields : List (String × Json) → List (String × Json)
  | [] => []
  | (k, v) :: kvs => (k, Json.canon v) :: Json.canonFields kvs
end

/-- JSON string escaping as `json.dumps(..., ensure_ascii=False)` does it:
`"` and `\` are backslash-escaped, the common control characters get
their short forms, any other control character becomes `\u00XX`, and
everything else is kept verbatim. -/
def escChar (c : Char) : String :=
  if c = '"' then "\\\""
  else if c = '\\' then "\\\\"
  else if c = '\n' then "\\n"
  else if c = '\t' then "\\t"
  else if c = '\r' then "\\r"
  else if c.toNat < 32 then
    let hexDigit : Nat → Char := fun n =>
      if n < 10 then Char.ofNat (48 + n) else Char.ofNat (87 + n)
    String.mk ['\\', 'u', '0', '0', hexDigit (c.toNat / 16), hexDigit (c.toNat % 16)]
  else String.mk [c]

/-- Python `json.dumps` rendering of a string literal. -/
def jsonStr (s : String) : String :=
  "\"" ++ String.join (s.data.map escChar) ++ "\""

mutual
/-- Serialize an (already canonicalized) value with `json.dumps`'s
default separators `", "` and `": "`. -/
def Json.dumpsAux : Json → String
  | .null => "null"
  | .bool b => if b then "true" else "false"
  | .num n => toString n
  | .str s => jsonStr s
  | .arr elems => "[" ++ Json.dumpsList elems ++ "]"
  | .obj fields => "\x7b" ++ Json.dumpsFields fields ++ "\x7d"

def Json.dumpsList : List Json → String
  | [] => ""
  | [j] => Json.dumpsAux j
  | j :: js => Json.dumpsAux j ++ ", " ++ Json.dumpsList js

def Json.dumpsFields : List (String × Json) → String
  | [] => ""
  | [(k, v)] => jsonStr k ++ ": " ++ Json.dumpsAux v
  | (k, v) :: kvs => jsonStr k ++ ": " ++ Json.dumpsAux v ++ ", " ++ Json.dumpsFields kvs
end

/-- Source: `json.dumps(v, sort_keys=True, ensure_ascii=False)`. -/
def Json.dumps (j : Json) : String := Json.dumpsAux (Json.canon j)

/-! ## SHA-256 (`hashlib.sha256(...).hexdigest()`)

Straightforward FIPS 180-4 implementation over byte lists; 32-bit words
are `Nat`s reduced mod `2^32`. -/

def w32 (x : Nat) : Nat := x % 4294967296

def rotr (n x : Nat) : Nat := w32 ((x >>> n) ||| (x <<< (32 - n)))

/-- The 64 round constants (the fractional parts of the cube roots of
the first 64 primes, as 32-bit words, here in decimal). -/
def sha256K : List Nat :=
  [1116352408, 1899447441, 3049323471, 3921009573, 961987163,
   1508970993, 2453635748, 2870763221, 3624381080, 310598401,
   607225278, 1426881987, 1925078388, 2162078206, 2614888103,
   3248222580, 3835390401, 4022224774, 264347078, 604807628,
   770255983, 1249150122, 1555081692, 1996064986, 2554220882,
   2821834349, 2952996808, 3210313671, 3336571891, 3584528711,
   113926993, 338241895, 666307205, 773529912, 1294757372,
   1396182291, 1695183700, 1986661051, 2177026350, 2456956037,
   2730485921, 2820302411, 3259730800, 3345764771, 3516065817,
   3600352804, 4094571909, 275423344, 430227734, 506948616,
   659060556, 883997877, 958139571, 1322822218, 1537002063,
   1747873779, 1955562222, 2024104815, 2227730452, 2361852424,
   2428436474, 2756734187, 3204031479, 3329325298]

/-- The initial hash state (fractional parts of the square roots of the
first 8 primes, as 32-bit words, here in decimal). -/
def sha256H0 : List Nat :=
  [1779033703, 3144134277, 1013904242, 2773480762,
   1359893119, 2600822924, 528734635, 1541459225]

/-- Append the `0x80` byte, zero padding and the 64-bit big-endian bit
length, so the total length is a multiple of 64 bytes. -/
def sha256pad (msg : List Nat) : List Nat :=
  let len := msg.length
  let zeros := (119 - len % 64) % 64
  let bitLen := 8 * len
  msg ++ [0x80] ++ List.replicate zeros 0 ++
    [bitLen >>> 56 % 256, bitLen >>> 48 % 256, bitLen >>> 40 % 256,
     bitLen >>> 32 % 256, bitLen >>> 24 % 256, bitLen >>> 16 % 256,
     bitLen >>> 8 % 256, bitLen % 256]

def chunks64 : List Nat → List (List Nat)
  | [] => []
  | b :: rest => (b :: rest).take 64 :: chunks64 ((b :: rest).drop 64)
  termination_by l => l.length
  decreasing_by simp; omega

def toWords : List Nat → List Nat
  | b0 :: b1 :: b2 :: b3 :: rest => (((b0 * 256 + b1) * 256 + b2) * 256 + b3) :: toWords rest
  | _ => []

def smallSigma0 (x : Nat) : Nat := rotr 7 x ^^^ rotr 18 x ^^^ (x >>> 3)

def smallSigma1 (x : Nat) : Nat := rotr 17 x ^^^ rotr 19 x ^^^ (x >>> 10)

/-- Extend the 16 words of a chunk to the 64-word message schedule. -/
def extendSchedule : Nat → List Nat → List Nat
  | 0, ws => ws
  | n + 1, ws =>
    let i := ws.length
    let wnew := w32 (ws.getD (i - 16) 0 + smallSigma0 (ws.getD (i - 15) 0) +
                     ws.getD (i - 7) 0 + smallSigma1 (ws.getD (i - 2) 0))
    extendSchedule n (ws ++ [wnew])

def compressStep (st : List Nat) (k : Nat) (w : Nat) : List Nat :=
  match st with
  | [a, b, c, d, e, f, g, h] =>
    let s1 := rotr 6 e ^^^ rotr 11 e ^^^ rotr 25 e
    let ch := (e &&& f) ^^^ ((e ^^^ 4294967295) &&& g)
    let temp1 := w32 (h + s1 + ch + k + w)
    let s0 := rotr 2 a ^^^ rotr 13 a ^^^ rotr 22 a
    let maj := (a &&& b) ^^^ (a &&& c) ^^^ (b &&& c)
    let temp2 := w32 (s0 + maj)
    [w32 (temp1 + temp2), a, b, c, w32 (d + temp1), e, f, g]
  | _ => st

def processChunk (hs : List Nat) (chunk : List Nat) : List Nat :=
  let ws := extendSchedule 48 (toWords chunk)
  let st := (sha256K.zip ws).foldl (fun st kw => compressStep st kw.1 kw.2) hs
  List.zipWith (fun h x => w32 (h + x)) hs st

def sha256words (msg : List Nat) : List Nat :=
  (chunks64 (sha256pad msg)).foldl processChunk sha256H0

def hexDigitChar (n : Nat) : Char :=
  if n < 10 then Char.ofNat (48 + n) else Char.ofNat (87 + n)

def wordHex (x : Nat) : String :=
  String.mk [hexDigitChar (x >>> 28 % 16), hexDigitChar (x >>> 24 % 16),
             hexDigitChar (x >>> 20 % 16), hexDigitChar (x >>> 16 % 16),
             hexDigitChar (x >>> 12 % 16), hexDigitChar (x >>> 8 % 16),
             hexDigitChar (x >>> 4 % 16), hexDigitChar (x % 16)]

/-- Source: `hashlib.sha256(bytes).hexdigest()`. -/
def sha256hex (msg : List Nat) : String :=
  String.join ((sha256words msg).map wordHex)

/-- UTF-8 encoding of a string, as `str.encode()` produces it. -/
def strBytes (s : String) : List Nat :=
  s.toUTF8.toList.map UInt8.toNat

/-- The content fingerprint of a structured record:
`hashlib.sha256(json.dumps(record, sort_keys=True,
ensure_ascii=False).encode()).hexdigest()` (scraper.py lines 368-369). -/
def fingerprint (j : Json) : String :=
  sha256hex (strBytes (Json.dumps j))

/-- Strict key order, used to show sorted field lists are unique. -/
def keyLt (a b : String × Json) : Prop := a.1 < b.1

instance keyLtIsAntisymm : IsAntisymm (String × Json) keyLt :=
  ⟨fun _ _ h1 h2 => absurd (lt_trans h1 h2) (lt_irrefl _)⟩

/-! ## Plain-data records produced by the extractors

`_parse_plan_card` (scraper.py lines 111-165) builds
`{'name': None | str, 'price': None | str, 'billing': None | str,
'features': [str]}`; the feature extractor builds
`{'name': str, 'description': str}` and the blog extractor
`{'title': str, 'date': str, 'url': str}`. -/

structure Plan where
  name : Option String := none
  price : Option String := none
  billing : Option String := none
  features : List String := []
deriving DecidableEq, Repr

structure Feature where
  name : String
  description : String
deriving DecidableEq, Repr

structure Post where
  title : String
  date : String
  url : String
deriving DecidableEq, Repr

/-- Python truthiness of an optional string (`if p.get('name')`):
present and non-empty. -/
def truthy : Option String → Bool
  | none => false
  | some s => s != ""

/-- Python slicing `s[:n]` (by code points). -/
def pyTake (s : String) (n : Nat) : String := String.mk (s.data.take n)

/-! ## Python dict and set models

Python dicts iterate in key-insertion order; overwriting a key keeps
its position.  Modelled as an association list with in-place
overwrite.  Python sets iterate in an unspecified (hash-dependent)
order; they are modelled as first-occurrence-deduplicated lists — the
claims proved below do not depend on the iteration order, only on
membership and on the caps applied to the resulting lists. -/

def dictInsert {α : Type} (d : List (String × α)) (k : String) (v : α) :
    List (String × α) :=
  if d.any (fun kv => kv.1 == k) then
    d.map (fun kv => if kv.1 == k then (k, v) else kv)
  else d ++ [(k, v)]

def dictMem {α : Type} (d : List (String × α)) (k : String) : Bool :=
  d.any (fun kv => kv.1 == k)

def dictGet {α : Type} (d : List (String × α)) (k : String) : Option α :=
  (d.find? (fun kv => kv.1 == k)).map (fun kv => kv.2)

def dedupFirst : List String → List String
  | [] => []
  | x :: xs => x :: (dedupFirst xs).filter (fun y => y != x)

/-- Source: `set(new) - set(old)`, iterated (model order: first occurrence). -/
def pySetDiff (new old : List String) : List String :=
  (dedupFirst new).filter (fun x => !old.contains x)

/-! ## Change describers (scraper.py lines 260-329) -/

/-- Source: `{p['name']: p for p in plans if p.get('name')}`
(scraper.py lines 264-265). -/
def plansByName (ps : List Plan) : List (String × Plan) :=
  ps.foldl (fun d p =>
    match p.name with
    | some n => if n != "" then dictInsert d n p else d
    | none => d) []

/-- Source: `p.get('price') or 'unknown price'` (scraper.py line 271). -/
def priceDisplay (p : Plan) : String :=
  match p.price with
  | some s => if s != "" then s else "unknown price"
  | none => "unknown price"

/-- First loop of `describe_pricing_changes` (lines 268-272): plans in
`new` whose name is absent from `old`. -/
def newPlanMessages (old_by new_by : List (String × Plan)) : List String :=
  (new_by.filter (fun kv => !dictMem old_by kv.1)).map
    (fun kv => "New plan added: \"" ++ kv.1 ++ "\" at " ++ priceDisplay kv.2)

/-- Second loop (lines 275-277): plans in `old` whose name is absent
from `new`. -/
def removedPlanMessages (old_by new_by : List (String × Plan)) : List String :=
  (old_by.filter (fun kv => !dictMem new_by kv.1)).map
    (fun kv => "Plan removed: \"" ++ kv.1 ++ "\"")

/-- Price-change message for one matched plan (lines 282-287): emitted
only when both prices are truthy and differ. -/
def priceChangeMessages (name : String) (oldPlan newPlan : Plan) : List String :=
  match oldPlan.price, newPlan.price with
  | some op, some np =>
    if op != "" && np != "" && op != np then
      ["\"" ++ name ++ "\" price changed from " ++ op ++ " to " ++ np]
    else []
  | _, _ => []

/-- Source: `for f in list(new_feats - old_feats)[:3]` (lines 290-295). -/
def planFeatureAddedMessages (name : String) (oldPlan newPlan : Plan) : List String :=
  ((pySetDiff newPlan.features oldPlan.features).take 3).map
    (fun f => "\"" ++ name ++ "\" plan: added feature \"" ++ pyTake f 80 ++ "\"")

/-- Source: `for f in list(old_feats - new_feats)[:3]` (lines 296-297). -/
def planFeatureRemovedMessages (name : String) (oldPlan newPlan : Plan) : List String :=
  ((pySetDiff oldPlan.features newPlan.features).take 3).map
    (fun f => "\"" ++ name ++ "\" plan: removed feature \"" ++ pyTake f 80 ++ "\"")

/-- Third loop (lines 280-297): for each plan name present in both
dicts, in `new_by_name` iteration order, the price-change message then
the per-plan feature additions and removals. -/
def planModificationMessages (old_by new_by : List (String × Plan)) : List String :=
  (new_by.filter (fun kv => dictMem old_by kv.1)).foldr
    (fun kv acc =>
      match dictGet old_by kv.1 with
      | some oldPlan =>
        priceChangeMessages kv.1 oldPlan kv.2 ++
        planFeatureAddedMessages kv.1 oldPlan kv.2 ++
        planFeatureRemovedMessages kv.1 oldPlan kv.2 ++ acc
      | none => acc) []

/-- Source: `describe_pricing_changes` (scraper.py lines 260-299). -/
def describe_pricing_changes (old_plans new_plans : List Plan) : List String :=
  let old_by_name := plansByName old_plans
  let new_by_name := plansByName new_plans
  newPlanMessages old_by_name new_by_name ++
  removedPlanMessages old_by_name new_by_name ++
  planModificationMessages old_by_name new_by_name

/-- Source: `for name in list(added)[:5]` (scraper.py lines 311-312). -/
def featureAddedMessages (old_names new_names : List String) : List String :=
  ((pySetDiff new_names old_names).take 5).map
    (fun n => "New feature announced: \"" ++ n ++ "\"")

/-- Source: `for name in list(removed)[:5]` (scraper.py lines 313-314). -/
def featureRemovedMessages (old_names new_names : List String) : List String :=
  ((pySetDiff old_names new_names).take 5).map
    (fun n => "Feature removed from page: \"" ++ n ++ "\"")

/-- Source: `describe_feature_changes` (scraper.py lines 301-316). -/
def describe_feature_changes (old_features new_features : List Feature) : List String :=
  let old_names := old_features.map Feature.name
  let new_names := new_features.map Feature.name
  featureAddedMessages old_names new_names ++
  featureRemovedMessages old_names new_names

/-- Source: `describe_blog_changes` (scraper.py lines 318-329). -/
def describe_blog_changes (old_posts new_posts : List Post) : List String :=
  ((pySetDiff (new_posts.map Post.title) (old_posts.map Post.title)).take 5).map
    (fun t => "New blog post published: \"" ++ t ++ "\"")

/-- Joining and truncating the change messages (scraper.py lines
421-423): `description = ' | '.join(change_messages)`, truncated to
497 characters plus `'...'` when longer than 500. -/
def joinDescription (msgs : List String) : String :=
  let description := " | ".intercalate msgs
  if description.length > 500 then pyTake description 497 ++ "..." else description

/-! ## Structured records and the content hash (scraper.py lines 357-369)

`structured` is a list of dicts for pricing / features / blog pages and
a `{'text': ...}` dict otherwise. -/

inductive Structured where
  | pricing (plans : List Plan) : Structured
  | features (feats : List Feature) : Structured
  | blog (posts : List Post) : Structured
  | generic (text : String) : Structured
deriving DecidableEq, Repr

def optStrJson : Option String → Json
  | none => Json.null
  | some s => Json.str s

/-- The dict `{'name': ..., 'price': ..., 'billing': ..., 'features': [...]}`
built by `_parse_plan_card` (scraper.py line 113), as a JSON value. -/
def Plan.toJson (p : Plan) : Json :=
  Json.obj [("name", optStrJson p.name), ("price", optStrJson p.price),
            ("billing", optStrJson p.billing),
            ("features", Json.arr (p.features.map Json.str))]

/-- Source: `{'name': ..., 'description': ...}` (scraper.py line 200). -/
def Feature.toJson (f : Feature) : Json :=
  Json.obj [("name", Json.str f.name), ("description", Json.str f.description)]

/-- Source: `{'title': ..., 'date': ..., 'url': ...}` (scraper.py line 246). -/
def Post.toJson (p : Post) : Json :=
  Json.obj [("title", Json.str p.title), ("date", Json.str p.date),
            ("url", Json.str p.url)]

def Structured.toJson : Structured → Json
  | .pricing plans => Json.arr (plans.map Plan.toJson)
  | .features feats => Json.arr (feats.map Feature.toJson)
  | .blog posts => Json.arr (posts.map Post.toJson)
  | .generic text => Json.obj [("text", Json.str text)]

/-- Source: `structured_json = json.dumps(structured, sort_keys=True,
ensure_ascii=False)` (scraper.py line 368). -/
def structuredJson (s : Structured) : String := Json.dumps (Structured.toJson s)

/-- Source: `content_hash = hashlib.sha256(structured_json.encode()).hexdigest()`
(scraper.py line 369). -/
def contentHashOf (s : Structured) : String := fingerprint (Structured.toJson s)

/-! ## Reading back a stored record (`json.loads` plus dict access)

`scrape_page` parses the previous snapshot's serialized content and
passes it to a describer after an `isinstance(old_data, list)` check.
In the store model the parsed value is kept directly (for the JSON this
program writes, `json.loads` inverts `json.dumps`), and these decoders
model the dict `.get` accesses the describers perform; in the data this
program produces, `name`, `price`, `billing`, `title`, `date` and `url`
are strings or `None`, and `features` is a list of strings. -/

def jget : Json → String → Option Json
  | .obj kvs, k => (kvs.find? (fun kv => kv.1 == k)).map (fun kv => kv.2)
  | _, _ => none

def asOptStr : Option Json → Option String
  | some (.str s) => some s
  | _ => none

def planOfJson (j : Json) : Plan :=
  { name := asOptStr (jget j "name"), price := asOptStr (jget j "price"),
    billing := asOptStr (jget j "billing"),
    features := match jget j "features" with
      | some (.arr xs) => xs.filterMap (fun x => asOptStr (some x))
      | _ => [] }

/-- Source: `old_data if isinstance(old_data, list) else []` followed by
per-element dict access. -/
def plansOfJson : Json → List Plan
  | .arr xs => xs.map planOfJson
  | _ => []

def featureOfJson (j : Json) : Feature :=
  { name := (asOptStr (jget j "name")).getD "",
    description := (asOptStr (jget j "description")).getD "" }

def featuresOfJson : Json → List Feature
  | .arr xs => xs.map featureOfJson
  | _ => []

def postOfJson (j : Json) : Post :=
  { title := (asOptStr (jget j "title")).getD "",
    date := (asOptStr (jget j "date")).getD "",
    url := (asOptStr (jget j "url")).getD "" }

def postsOfJson : Json → List Post
  | .arr xs => xs.map postOfJson
  | _ => []

/-! ## The snapshot store (database.py)

`snapshots` and `changes` are append-only tables
(`save_snapshot` / `record_change` are plain INSERTs);
`get_latest_snapshot` selects the row for `(competitor_name, page_url)`
with the greatest `scraped_at`, which — rows being inserted in
time order — is the most recently appended matching row.  The model
keeps the parsed structured value as `content` (the table stores
`json.dumps` of it, recovered as `structuredJson content`) and the two
metadata fields inline. -/

structure Snapshot where
  competitor_name : String
  page_url : String
  page_type : String
  content_hash : String
  content : Structured
  status_code : Nat
  scraped_at : Nat
deriving DecidableEq, Repr

structure ChangeEvent where
  competitor_name : String
  page_url : String
  page_type : String
  change_description : String
  old_content : String
  new_content : String
deriving DecidableEq, Repr

structure CompetitorDB where
  snapshots : List Snapshot
  changes : List ChangeEvent
deriving DecidableEq, Repr

/-- Source: `save_snapshot` (database.py lines 65-79): INSERT. -/
def CompetitorDB.save_snapshot (db : CompetitorDB) (s : Snapshot) : CompetitorDB :=
  { db with snapshots := db.snapshots ++ [s] }

/-- Source: `record_change` (database.py lines 107-121): INSERT. -/
def CompetitorDB.record_change (db : CompetitorDB) (c : ChangeEvent) : CompetitorDB :=
  { db with changes := db.changes ++ [c] }

/-- Source: `get_latest_snapshot` (database.py lines 81-105): most recent
snapshot for this exact `(competitor_name, page_url)`. -/
def CompetitorDB.get_latest_snapshot (db : CompetitorDB) (name url : String) :
    Option Snapshot :=
  db.snapshots.reverse.find?
    (fun s => s.competitor_name == name && s.page_url == url)

/-! ## scrape_page (scraper.py lines 334-448) -/

structure PageConfig where
  url : String
  page_type : String := "other"
  selector : String := ""
deriving DecidableEq, Repr

/-- A successful HTTP response, reduced to what `scrape_page` uses:
the status code, and the structured record that the deterministic
parse → clean → select → extract phase (lines 346-366) produces from
its body. -/
structure Response where
  status_code : Nat
  structured : Structured
deriving DecidableEq, Repr

/-- The three `describe_*` methods, taken as parameters so that the
first-scrape and unchanged-page theorems can quantify over them
(showing the describers are not consulted on those paths).
`theDescribers` is the instantiation used by the program. -/
structure Describers where
  pricing : List Plan → List Plan → List String
  features : List Feature → List Feature → List String
  blog : List Post → List Post → List String

def theDescribers : Describers :=
  { pricing := describe_pricing_changes,
    features := describe_feature_changes,
    blog := describe_blog_changes }

/-- The snapshot row `scrape_page` inserts (scraper.py lines 374-378
and 383-390 / 439-446): metadata is the response status and the scrape
time. -/
def mkSnapshot (name : String) (cfg : PageConfig) (resp : Response) (now : Nat) :
    Snapshot :=
  { competitor_name := name, page_url := cfg.url, page_type := cfg.page_type,
    content_hash := contentHashOf resp.structured, content := resp.structured,
    status_code := resp.status_code, scraped_at := now }

/-- The change-description messages computed for a changed page
(scraper.py lines 394-419): dispatch on `page_type`, with the
`isinstance(..., list)` guards folded into the `*OfJson` decoders, and
the generic fallback when no specific message was produced. -/
def changeMessages (ds : Describers) (cfg : PageConfig)
    (oldData : Json) (newData : Json) : List String :=
  let msgs :=
    if cfg.page_type == "pricing" then
      ds.pricing (plansOfJson oldData) (plansOfJson newData)
    else if cfg.page_type == "features" then
      ds.features (featuresOfJson oldData) (featuresOfJson newData)
    else if cfg.page_type == "blog" then
      ds.blog (postsOfJson oldData) (postsOfJson newData)
    else []
  if msgs.isEmpty then ["Content updated on this page"] else msgs

/-- Source: `scrape_page` (scraper.py lines 334-448), from the fetch onwards.
`response = none` is a failed fetch (`fetch_page` returned `None`):
return `False` without touching the store.  Otherwise hash the
structured record, compare with the latest stored snapshot, always save
a fresh snapshot, record a change (with the joined, truncated
description) only when a previous snapshot exists with a different
hash, and return `bool(previous)` on the changed path. -/
def scrape_page (ds : Describers) (db : CompetitorDB) (competitor_name : String)
    (page_config : PageConfig) (response : Option Response) (now : Nat) :
    CompetitorDB × Bool :=
  match response with
  | none => (db, false)
  | some resp =>
    let structured := resp.structured
    let structured_json := structuredJson structured
    let content_hash := contentHashOf structured
    let previous := db.get_latest_snapshot competitor_name page_config.url
    let snap := mkSnapshot competitor_name page_config resp now
    match previous with
    | some prev =>
      if prev.content_hash == content_hash then
        (db.save_snapshot snap, false)
      else
        let msgs := changeMessages ds page_config
          (Structured.toJson prev.content) (Structured.toJson structured)
        let description := joinDescription msgs
        let db1 := db.record_change
          { competitor_name := competitor_name, page_url := page_config.url,
            page_type := page_config.page_type, change_description := description,
            old_content := pyTake (structuredJson prev.content) 1000,
            new_content := pyTake structured_json 1000 }
        (db1.save_snapshot snap, true)
    | none => (db.save_snapshot snap, false)

/-- One `(competitor, page)` task (scraper.py lines 466-469), together
with the outcome of its HTTP fetch. -/
structure ScrapeTask where
  competitor_name : String
  page : PageConfig
  response : Option Response

/-- Source: `scrape_all_competitors` (scraper.py lines 453-492): one task per
`(competitor, page)` pair, `total_changes` counts the tasks whose
`scrape_page` returned `True`.  The bounded thread pool is modelled as
a sequential fold: tasks operate on distinct `(competitor, url)` keys,
the store's inserts commute across distinct keys, and the count is
order-insensitive; `scrape_page` is total in the model, matching the
per-task exception handler. -/
def scrape_all_competitors (ds : Describers) (db : CompetitorDB)
    (tasks : List ScrapeTask) (now : Nat) : CompetitorDB × Nat :=
  tasks.foldl (fun acc t =>
    let r := scrape_page ds acc.1 t.competitor_name t.page t.response now
    (r.1, acc.2 + if r.2 then 1 else 0)) (db, 0)

/-! ## Structured extraction (extractors.py) -/

/-- A plan dict as built by `_extract_from_table` /
`_extract_single_plan_content` (extractors.py lines 165-170, 314-318). -/
structure EPlan where
  name : Option String := none
  price : Option String := none
  features : List String := []
deriving DecidableEq, Repr

/-- The seen-set deduplication loop shared by extractors.py lines 84-89
and scraper.py lines 100-107 / 203-208: `seen = set(); unique = []` and
append each element whose key has not been seen. -/
def seenDedup {β κ : Type} [DecidableEq κ] (key : β → κ) (xs : List β) : List β :=
  (xs.foldl
    (fun acc p => if key p ∈ acc.2 then acc else (acc.1 ++ [p], acc.2 ++ [key p]))
    (([] : List β), ([] : List κ))).1

/-- Recursive form of the seen-set loop, used in proofs. -/
def seenGo {β κ : Type} [DecidableEq κ] (key : β → κ) : List κ → List β → List β
  | _, [] => []
  | seen, p :: rest =>
    if key p ∈ seen then seenGo key seen rest
    else p :: seenGo key (key p :: seen) rest

/-- Source: `key = (p.get('name', ''), p.get('price', ''))` (scraper.py line
104); both keys are always present in a parsed plan card, so the
defaults never apply and the components are the possibly-`None`
values. -/
def planKey (p : Plan) : Option String × Option String := (p.name, p.price)

/-- The dedup stage of `extract_pricing_data` (scraper.py lines
100-107). -/
def extract_pricing_data_dedup (plans : List Plan) : List Plan :=
  seenDedup planKey plans

/-- The dedup stage of `extract_features_data` (scraper.py lines
203-208), keyed by `f['name']`. -/
def extract_features_data_dedup (features : List Feature) : List Feature :=
  seenDedup Feature.name features

/-- Source: `key = (p['name'], p['price'])` (extractors.py line 86). -/
def eplanKey (p : EPlan) : Option String × Option String := (p.name, p.price)

/-- The dedup stage of extractors.py `extract_pricing` (lines 82-89). -/
def extract_pricing_dedup (plans : List EPlan) : List EPlan :=
  seenDedup eplanKey plans

/-- The dedup stage of extractors.py `extract_features` (line 357):
`unique = {f['name']: f for f in features}.values()` — a dict
comprehension, so a later duplicate overwrites the record while keeping
the first occurrence's position. -/
def extract_features_dedup (features : List Feature) : List Feature :=
  (features.foldl (fun d f => dictInsert d f.name f) []).map (fun kv => kv.2)

/-- Source: `re.search(r"([\x24€£¥])", price)` (extractors.py line 71): the
first currency symbol occurring in the price string. -/
def currencySearch (s : String) : Option Char :=
  s.data.find? (fun c => c == '$' || c == '€' || c == '£' || c == '¥')

/-- The currency-detection loop of `extract_pricing` (extractors.py
lines 69-73): scan plans in order; once a symbol is found, later plans
are skipped. -/
def detectCurrency : List EPlan → Option Char
  | [] => none
  | p :: rest =>
    match p.price with
    | some s =>
      if s != "" then
        match currencySearch s with
        | some c => some c
        | none => detectCurrency rest
      else detectCurrency rest
    | none => detectCurrency rest

structure PricingExtract where
  plans : List EPlan
  currency : Option Char
  billing_note : Option String
deriving DecidableEq, Repr

/-- Source: `extract_pricing` (extractors.py lines 45-95).  The three tier
functions `_extract_from_table`, `_extract_from_cards` and
`_extract_from_visual_columns`, and the global billing-note search, are
BeautifulSoup DOM heuristics; they are taken as parameters over an
abstract document type `α`, and the claims below quantify over them.
The composition logic — try tables, fall back to cards if no plan was
found, fall back to visual columns if still none, then detect the
currency, find the billing note, and deduplicate — is the code of
lines 55-95. -/
def extract_pricing {α : Type}
    (tableTier cardsTier columnsTier : α → List EPlan)
    (findBillingNote : α → Option String) (soup : α) : PricingExtract :=
  let plans := tableTier soup
  let plans := if plans.isEmpty then cardsTier soup else plans
  let plans := if plans.isEmpty then columnsTier soup else plans
  let detected_currency := detectCurrency plans
  let billing_note := findBillingNote soup
  let unique_plans := extract_pricing_dedup plans
  { plans := unique_plans, currency := detected_currency,
    billing_note := billing_note }

/-! ## Fetching with retries (scraper.py lines 28-34 and 45-52)

`fetch_page` itself is a `session.get` wrapped in
`try/except RequestException: return None`; the retry loop lives in the
`urllib3.util.retry.Retry` object the session is configured with. -/

structure RetryConfig where
  total : Nat
  backoff_factor : Nat
  status_forcelist : List Nat
deriving DecidableEq, Repr

/-- Source: `Retry(total=3, backoff_factor=1,
status_forcelist=[429, 500, 502, 503, 504])` (scraper.py lines 29-31). -/
def sessionRetryConfig : RetryConfig :=
  { total := 3, backoff_factor := 1,
    status_forcelist := [429, 500, 502, 503, 504] }

/-- The outcome of one HTTP request attempt: a connection-level error,
or a response with a status code. -/
inductive AttemptResult where
  | connError : AttemptResult
  | status (code : Nat) : AttemptResult
deriving DecidableEq, Repr

/-- A failure the configured `Retry` object retries: any
connection-level error, or a status in the forcelist. -/
def retryable (cfg : RetryConfig) : AttemptResult → Bool
  | .connError => true
  | .status c => c ∈ cfg.status_forcelist

/-- Modelled from the spec: the retry loop itself is implemented by
`urllib3.util.retry.Retry` (a library, not part of this repository);
only its configuration (scraper.py lines 28-34) is in the source.  Per
the spec, retryable failures (429/500/502/503/504 and connection
errors) are retried up to the fixed budget with exponential backoff
(`backoff_factor * 2^k` before the k-th retry), other statuses are
returned as-is, and exhaustion surfaces as an exception
(`RequestException`), here the `.error` case.  `attempts i` is the
environment's outcome for the i-th request; the returned list is the
backoff sleeps performed. -/
def runRetriesGo (cfg : RetryConfig) (attempts : Nat → AttemptResult) :
    Nat → Nat → List Nat → Except Unit Nat × List Nat
  | 0, _, sleeps => (.error (), sleeps)
  | fuel + 1, i, sleeps =>
    match attempts i with
    | .status c =>
      if c ∈ cfg.status_forcelist then
        if fuel = 0 then (.error (), sleeps)
        else runRetriesGo cfg attempts fuel (i + 1)
          (sleeps ++ [cfg.backoff_factor * 2 ^ i])
      else (.ok c, sleeps)
    | .connError =>
      if fuel = 0 then (.error (), sleeps)
      else runRetriesGo cfg attempts fuel (i + 1)
        (sleeps ++ [cfg.backoff_factor * 2 ^ i])

def runRetries (cfg : RetryConfig) (attempts : Nat → AttemptResult) :
    Except Unit Nat × List Nat :=
  runRetriesGo cfg attempts (cfg.total + 1) 0 []

/-- Source: `fetch_page` (scraper.py lines 45-52): `session.get` with the retry
adapter, then `raise_for_status()`, with every `RequestException`
caught and turned into `None`.  `raise_for_status` raises for 4xx and
5xx final statuses. -/
def fetch_page (cfg : RetryConfig) (attempts : Nat → AttemptResult) : Option Nat :=
  match (runRetries cfg attempts).1 with
  | .error _ => none
  | .ok status => if 400 ≤ status ∧ status < 600 then none else some status

/-! # Theorems -/

/-! ## Canonicalization and the fingerprint (C3) -/

theorem canonFields_eq_map (kvs : List (String × Json)) :
    Json.canonFields kvs = kvs.map (fun kv => (kv.1, Json.canon kv.2)) := by
  induction kvs with
  | nil => rfl
  | cons kv kvs ih => cases kv; simp [Json.canonFields, ih]

theorem canonFields_fst (kvs : List (String × Json)) :
    (Json.canonFields kvs).map Prod.fst = kvs.map Prod.fst := by
  simp [canonFields_eq_map]

/-- Two field lists that are permutations of one another with no
duplicate keys sort to the same list. -/
theorem insertionSort_keyLe_eq_of_perm (l1 l2 : List (String × Json))
    (hp : l1.Perm l2) (hnd : (l1.map Prod.fst).Nodup) :
    List.insertionSort keyLe l1 = List.insertionSort keyLe l2 := by
  have hperm : (List.insertionSort keyLe l1).Perm (List.insertionSort keyLe l2) :=
    (List.perm_insertionSort keyLe l1).trans
      (hp.trans (List.perm_insertionSort keyLe l2).symm)
  have hs1 : List.Sorted keyLe (List.insertionSort keyLe l1) :=
    List.sorted_insertionSort keyLe l1
  have hs2 : List.Sorted keyLe (List.insertionSort keyLe l2) :=
    List.sorted_insertionSort keyLe l2
  have hnd2 : (l2.map Prod.fst).Nodup :=
    ((hp.map Prod.fst).nodup_iff).mp hnd
  have strict : ∀ l : List (String × Json), (l.map Prod.fst).Nodup →
      List.Sorted keyLe (List.insertionSort keyLe l) →
      List.Sorted keyLt (List.insertionSort keyLe l) := by
    intro l hl hsort
    have hndl : ((List.insertionSort keyLe l).map Prod.fst).Nodup :=
      (((List.perm_insertionSort keyLe l).map Prod.fst).nodup_iff).mpr hl
    have hne : (List.insertionSort keyLe l).Pairwise (fun a b => a.1 ≠ b.1) :=
      List.pairwise_map.mp hndl
    exact (hsort.and hne).imp (fun h => lt_of_le_of_ne h.1 h.2)
  exact List.eq_of_perm_of_sorted hperm (strict l1 hnd hs1) (strict l2 hnd2 hs2)

/-- Canonicalization of an object is insensitive to the order its
fields were listed in, as long as keys are distinct. -/
theorem canon_obj_eq_of_perm (kvs1 kvs2 : List (String × Json))
    (hp : kvs1.Perm kvs2) (hnd : (kvs1.map Prod.fst).Nodup) :
    Json.canon (Json.obj kvs1) = Json.canon (Json.obj kvs2) := by
  have hcp : (Json.canonFields kvs1).Perm (Json.canonFields kvs2) := by
    rw [canonFields_eq_map, canonFields_eq_map]; exact hp.map _
  have hcnd : ((Json.canonFields kvs1).map Prod.fst).Nodup := by
    rw [canonFields_fst]; exact hnd
  simp only [Json.canon]
  rw [insertionSort_keyLe_eq_of_perm _ _ hcp hcnd]

theorem canonList_eq_of_forall₂ (xs ys : List Json)
    (h : List.Forall₂ (fun a b => Json.canon a = Json.canon b) xs ys) :
    Json.canonList xs = Json.canonList ys := by
  induction h with
  | nil => rfl
  | cons hab _ ih => simp [Json.canonList, hab, ih]

/-- C3: the content fingerprint (sha256 of the canonical JSON
serialization with sorted keys) is deterministic: repeated computations
on the same record agree, and two records that are equal up to
dictionary key ordering — a single object with permuted fields, or a
list of objects each with permuted fields (e.g. a list of pricing
plans), keys being distinct as Python dict keys are — hash to the same
fingerprint. -/
theorem fingerprint_deterministic :
    (∀ j : Json, fingerprint j = fingerprint j) ∧
    (∀ kvs1 kvs2 : List (String × Json), kvs1.Perm kvs2 →
      (kvs1.map Prod.fst).Nodup →
      fingerprint (Json.obj kvs1) = fingerprint (Json.obj kvs2)) ∧
    (∀ objs1 objs2 : List (List (String × Json)),
      List.Forall₂ (fun a b => a.Perm b ∧ (a.map Prod.fst).Nodup) objs1 objs2 →
      fingerprint (Json.arr (objs1.map Json.obj)) =
        fingerprint (Json.arr (objs2.map Json.obj))) := by
  refine ⟨fun _ => rfl, fun kvs1 kvs2 hp hnd => ?_, fun objs1 objs2 h => ?_⟩
  · unfold fingerprint Json.dumps
    rw [canon_obj_eq_of_perm kvs1 kvs2 hp hnd]
  · unfold fingerprint Json.dumps
    have key : List.Forall₂ (fun a b => Json.canon a = Json.canon b)
        (objs1.map Json.obj) (objs2.map Json.obj) := by
      induction h with
      | nil => exact List.Forall₂.nil
      | cons hab _ ih =>
        exact List.Forall₂.cons (canon_obj_eq_of_perm _ _ hab.1 hab.2) ih
    have : Json.canon (Json.arr (objs1.map Json.obj)) =
        Json.canon (Json.arr (objs2.map Json.obj)) := by
      simp only [Json.canon]
      exact congrArg Json.arr (canonList_eq_of_forall₂ _ _ key)
    rw [this]

/-- Witness for `fingerprint_deterministic` at a concrete record. -/
theorem fingerprint_deterministic_witness :
    fingerprint (Json.obj [("name", Json.str "Pro"), ("price", Json.str "$49")]) =
      fingerprint (Json.obj [("price", Json.str "$49"), ("name", Json.str "Pro")]) :=
  fingerprint_deterministic.2.1 _ _ (List.Perm.swap _ _ _) (by decide)

/-! ## Describer scenarios and message structure (C9, C8, C10, C4) -/

/-- C9: with old pricing `[{name:"Pro", price:"$49"}]` and new pricing
`[{name:"Pro", price:"$59"}, {name:"Team", price:"$99"}]`,
`describe_pricing_changes` returns exactly two messages — the "Team"
new-plan message and the "Pro" price-change message — and no
plan-removal message. -/
theorem pricing_scenario_pro_team :
    describe_pricing_changes
      [{ name := some "Pro", price := some "$49" }]
      [{ name := some "Pro", price := some "$59" },
       { name := some "Team", price := some "$99" }] =
      ["New plan added: \"Team\" at $99",
       "\"Pro\" price changed from $49 to $59"] := by
  rfl

theorem newPlanMessages_lead (old_by new_by : List (String × Plan)) :
    ∀ m ∈ newPlanMessages old_by new_by, ∃ rest, m = "New plan added: \"" ++ rest := by
  intro m hm
  rcases List.mem_map.mp hm with ⟨kv, _, rfl⟩
  exact ⟨kv.1 ++ "\" at " ++ priceDisplay kv.2, by simp [String.append_assoc]⟩

theorem removedPlanMessages_lead (old_by new_by : List (String × Plan)) :
    ∀ m ∈ removedPlanMessages old_by new_by, ∃ rest, m = "Plan removed: \"" ++ rest := by
  intro m hm
  rcases List.mem_map.mp hm with ⟨kv, _, rfl⟩
  exact ⟨kv.1 ++ "\"", by simp [String.append_assoc]⟩

theorem priceChangeMessages_lead (name : String) (oldPlan newPlan : Plan) :
    ∀ m ∈ priceChangeMessages name oldPlan newPlan, ∃ rest, m = "\"" ++ rest := by
  intro m hm
  unfold priceChangeMessages at hm
  split at hm
  · rename_i op np hop hnp
    split at hm
    · rcases List.mem_singleton.mp hm with rfl
      exact ⟨name ++ "\" price changed from " ++ op ++ " to " ++ np,
        by simp [String.append_assoc]⟩
    · simp at hm
  · simp at hm

theorem planFeatureAddedMessages_lead (name : String) (oldPlan newPlan : Plan) :
    ∀ m ∈ planFeatureAddedMessages name oldPlan newPlan, ∃ rest, m = "\"" ++ rest := by
  intro m hm
  rcases List.mem_map.mp hm with ⟨f, _, rfl⟩
  exact ⟨name ++ "\" plan: added feature \"" ++ pyTake f 80 ++ "\"",
    by simp [String.append_assoc]⟩

theorem planFeatureRemovedMessages_lead (name : String) (oldPlan newPlan : Plan) :
    ∀ m ∈ planFeatureRemovedMessages name oldPlan newPlan, ∃ rest, m = "\"" ++ rest := by
  intro m hm
  rcases List.mem_map.mp hm with ⟨f, _, rfl⟩
  exact ⟨name ++ "\" plan: removed feature \"" ++ pyTake f 80 ++ "\"",
    by simp [String.append_assoc]⟩

theorem planModificationMessages_lead (old_by new_by : List (String × Plan)) :
    ∀ m ∈ planModificationMessages old_by new_by, ∃ rest, m = "\"" ++ rest := by
  unfold planModificationMessages
  generalize (new_by.filter fun kv => dictMem old_by kv.1) = l
  induction l with
  | nil => intro m hm; simp at hm
  | cons kv l ih =>
    intro m hm
    rw [List.foldr_cons] at hm
    cases hdg : dictGet old_by kv.1 with
    | none => rw [hdg] at hm; exact ih m hm
    | some oldPlan =>
      rw [hdg] at hm
      rcases List.mem_append.mp hm with h1 | hacc
      · rcases List.mem_append.mp h1 with h2 | h5
        · rcases List.mem_append.mp h2 with h3 | h4
          · exact priceChangeMessages_lead kv.1 oldPlan kv.2 m h3
          · exact planFeatureAddedMessages_lead kv.1 oldPlan kv.2 m h4
        · exact planFeatureRemovedMessages_lead kv.1 oldPlan kv.2 m h5
      · exact ih m hacc

theorem featureAddedMessages_lead (old_names new_names : List String) :
    ∀ m ∈ featureAddedMessages old_names new_names,
      ∃ rest, m = "New feature announced: \"" ++ rest := by
  intro m hm
  rcases List.mem_map.mp hm with ⟨n, _, rfl⟩
  exact ⟨n ++ "\"", by simp [String.append_assoc]⟩

theorem featureRemovedMessages_lead (old_names new_names : List String) :
    ∀ m ∈ featureRemovedMessages old_names new_names,
      ∃ rest, m = "Feature removed from page: \"" ++ rest := by
  intro m hm
  rcases List.mem_map.mp hm with ⟨n, _, rfl⟩
  exact ⟨n ++ "\"", by simp [String.append_assoc]⟩

/-- C8: the describers emit change messages in the fixed order
additions, then removals, then modifications: the pricing output is the
concatenation of the plan-addition block, the plan-removal block and
the per-plan modification block, whose members are recognizable by
their leading text ("New plan added:", "Plan removed:", and a quoted
plan name respectively), and likewise the feature output is additions
then removals.  The describers are pure functions of their inputs, so
the order is reproducible across runs on the same inputs. -/
theorem describe_changes_ordering (old_plans new_plans : List Plan)
    (old_features new_features : List Feature) :
    (describe_pricing_changes old_plans new_plans =
      newPlanMessages (plansByName old_plans) (plansByName new_plans) ++
      removedPlanMessages (plansByName old_plans) (plansByName new_plans) ++
      planModificationMessages (plansByName old_plans) (plansByName new_plans)) ∧
    (∀ m ∈ newPlanMessages (plansByName old_plans) (plansByName new_plans),
      ∃ rest, m = "New plan added: \"" ++ rest) ∧
    (∀ m ∈ removedPlanMessages (plansByName old_plans) (plansByName new_plans),
      ∃ rest, m = "Plan removed: \"" ++ rest) ∧
    (∀ m ∈ planModificationMessages (plansByName old_plans) (plansByName new_plans),
      ∃ rest, m = "\"" ++ rest) ∧
    (describe_feature_changes old_features new_features =
      featureAddedMessages (old_features.map Feature.name)
        (new_features.map Feature.name) ++
      featureRemovedMessages (old_features.map Feature.name)
        (new_features.map Feature.name)) ∧
    (∀ m ∈ featureAddedMessages (old_features.map Feature.name)
        (new_features.map Feature.name),
      ∃ rest, m = "New feature announced: \"" ++ rest) ∧
    (∀ m ∈ featureRemovedMessages (old_features.map Feature.name)
        (new_features.map Feature.name),
      ∃ rest, m = "Feature removed from page: \"" ++ rest) :=
  ⟨rfl, newPlanMessages_lead _ _, removedPlanMessages_lead _ _,
   planModificationMessages_lead _ _, rfl, featureAddedMessages_lead _ _,
   featureRemovedMessages_lead _ _⟩

/-- Witness for `describe_changes_ordering` at the Pro/Team scenario. -/
theorem describe_changes_ordering_witness :
    (describe_pricing_changes
      [{ name := some "Pro", price := some "$49" }]
      [{ name := some "Pro", price := some "$59" },
       { name := some "Team", price := some "$99" }] =
      newPlanMessages
        (plansByName [{ name := some "Pro", price := some "$49" }])
        (plansByName [{ name := some "Pro", price := some "$59" },
                      { name := some "Team", price := some "$99" }]) ++
      removedPlanMessages
        (plansByName [{ name := some "Pro", price := some "$49" }])
        (plansByName [{ name := some "Pro", price := some "$59" },
                      { name := some "Team", price := some "$99" }]) ++
      planModificationMessages
        (plansByName [{ name := some "Pro", price := some "$49" }])
        (plansByName [{ name := some "Pro", price := some "$59" },
                      { name := some "Team", price := some "$99" }])) ∧
    (∃ rest, "New plan added: \"Team\" at $99" = "New plan added: \"" ++ rest) := by
  have h := describe_changes_ordering
    [{ name := some "Pro", price := some "$49" }]
    [{ name := some "Pro", price := some "$59" },
     { name := some "Team", price := some "$99" }] [] []
  exact ⟨h.1, h.2.1 "New plan added: \"Team\" at $99" (by decide)⟩

theorem plansByName_ignore_untruthy (l1 l2 : List Plan) (p : Plan)
    (hp : truthy p.name = false) :
    plansByName (l1 ++ p :: l2) = plansByName (l1 ++ l2) := by
  unfold plansByName
  rw [List.foldl_append, List.foldl_append, List.foldl_cons]
  congr 1
  cases h : p.name with
  | none => simp [h]
  | some n =>
    simp only [truthy, h] at hp
    simp [h, hp]

/-- C10: a plan whose name is missing, `None` or empty never enters the
by-name dictionaries, so inserting such a plan anywhere in the old or
the new list leaves the whole describer output unchanged — its
addition, removal or price change produces no plan-specific message —
and a price-change message requires both the old and the new plan to
carry a truthy price. -/
theorem nameless_plans_invisible (old_plans new_plans l1 l2 : List Plan)
    (p : Plan) (name : String) (oldPlan newPlan : Plan) :
    (truthy p.name = false →
      describe_pricing_changes (l1 ++ p :: l2) new_plans =
        describe_pricing_changes (l1 ++ l2) new_plans ∧
      describe_pricing_changes old_plans (l1 ++ p :: l2) =
        describe_pricing_changes old_plans (l1 ++ l2)) ∧
    (truthy oldPlan.price = false ∨ truthy newPlan.price = false →
      priceChangeMessages name oldPlan newPlan = []) := by
  constructor
  · intro hp
    constructor
    · unfold describe_pricing_changes
      rw [plansByName_ignore_untruthy l1 l2 p hp]
    · unfold describe_pricing_changes
      rw [plansByName_ignore_untruthy l1 l2 p hp]
  · intro hpr
    unfold priceChangeMessages
    cases hop : oldPlan.price with
    | none => rfl
    | some op =>
      cases hnp : newPlan.price with
      | none => rfl
      | some np =>
        rcases hpr with h | h
        · simp only [truthy, hop] at h
          simp [h]
        · simp only [truthy, hnp] at h
          simp [h]

/-- Witness for `nameless_plans_invisible`: a nameless plan with a
price appears in the new list without generating any message. -/
theorem nameless_plans_invisible_witness :
    (describe_pricing_changes [{ name := some "Pro", price := some "$49" }]
      ([{ name := some "Pro", price := some "$49" }] ++
        { name := none, price := some "$9" } :: []) =
      describe_pricing_changes [{ name := some "Pro", price := some "$49" }]
        ([{ name := some "Pro", price := some "$49" }] ++ [])) ∧
    priceChangeMessages "Pro" { name := some "Pro" }
      { name := some "Pro", price := some "$59" } = [] := by
  have h := nameless_plans_invisible
    [{ name := some "Pro", price := some "$49" }]
    [{ name := some "Pro", price := some "$49" }]
    [{ name := some "Pro", price := some "$49" }] []
    { name := none, price := some "$9" } "Pro"
    { name := some "Pro" } { name := some "Pro", price := some "$59" }
  exact ⟨(h.1 (by decide)).2, h.2 (Or.inl (by decide))⟩

/-- C4 as stated is false: plan-addition messages are not capped.  With
no old plans and six named new plans, the addition category alone
contains six messages, exceeding the claimed 3-5 per-category cap. -/
theorem describe_caps_counterexample :
    describe_pricing_changes []
      [{ name := some "P1" }, { name := some "P2" }, { name := some "P3" },
       { name := some "P4" }, { name := some "P5" }, { name := some "P6" }] =
      ["New plan added: \"P1\" at unknown price",
       "New plan added: \"P2\" at unknown price",
       "New plan added: \"P3\" at unknown price",
       "New plan added: \"P4\" at unknown price",
       "New plan added: \"P5\" at unknown price",
       "New plan added: \"P6\" at unknown price"] ∧
    (describe_pricing_changes []
      [{ name := some "P1" }, { name := some "P2" }, { name := some "P3" },
       { name := some "P4" }, { name := some "P5" }, { name := some "P6" }]).length
      = 6 :=
  ⟨rfl, rfl⟩

/-- C4 (amended): the caps that do exist — per matched plan at most 3
added-feature and 3 removed-feature messages and at most one
price-change message; at most 5 feature-page messages per direction; at
most 5 blog messages — hold, and the joined description never exceeds
500 characters, with `'...'` appended exactly when the join was longer
than 500.  Plan-addition and plan-removal messages are one per plan and
not otherwise capped (see the counterexample). -/
theorem describe_caps_amended (name : String) (oldPlan newPlan : Plan)
    (old_names new_names : List String) (old_posts new_posts : List Post)
    (msgs : List String) :
    (planFeatureAddedMessages name oldPlan newPlan).length ≤ 3 ∧
    (planFeatureRemovedMessages name oldPlan newPlan).length ≤ 3 ∧
    (priceChangeMessages name oldPlan newPlan).length ≤ 1 ∧
    (featureAddedMessages old_names new_names).length ≤ 5 ∧
    (featureRemovedMessages old_names new_names).length ≤ 5 ∧
    (describe_blog_changes old_posts new_posts).length ≤ 5 ∧
    (joinDescription msgs).length ≤ 500 ∧
    (500 < (" | ".intercalate msgs).length →
      ∃ t, joinDescription msgs = t ++ "..." ∧ t.length = 497) := by
  refine ⟨?_, ?_, ?_, ?_, ?_, ?_, ?_, ?_⟩
  · simp only [planFeatureAddedMessages, List.length_map, List.length_take]
    omega
  · simp only [planFeatureRemovedMessages, List.length_map, List.length_take]
    omega
  · unfold priceChangeMessages
    split
    · split <;> simp
    · simp
  · simp only [featureAddedMessages, List.length_map, List.length_take]
    omega
  · simp only [featureRemovedMessages, List.length_map, List.length_take]
    omega
  · simp only [describe_blog_changes, List.length_map, List.length_take]
    omega
  · simp only [joinDescription]
    split
    · rename_i h
      rw [String.length_append]
      have hp : (pyTake (" | ".intercalate msgs) 497).length ≤ 497 := by
        simp only [pyTake, String.length, List.length_take]
        omega
      have h3 : ("..." : String).length = 3 := rfl
      omega
    · rename_i h
      omega
  · intro h
    simp only [joinDescription]
    rw [if_pos (by omega)]
    refine ⟨pyTake (" | ".intercalate msgs) 497, rfl, ?_⟩
    simp only [pyTake, String.length, List.length_take]
    have hlen : (" | ".intercalate msgs).length =
        (" | ".intercalate msgs).data.length := rfl
    omega

set_option maxRecDepth 10000 in
/-- Witness for `describe_caps_amended`, including the truncation
branch on a 600-character message. -/
theorem describe_caps_amended_witness :
    (planFeatureAddedMessages "Pro" { features := [] }
      { features := ["a", "b", "c", "d", "e"] }).length ≤ 3 ∧
    (joinDescription [String.mk (List.replicate 600 'x')]).length ≤ 500 ∧
    (∃ t, joinDescription [String.mk (List.replicate 600 'x')] = t ++ "..." ∧
      t.length = 497) := by
  have h := describe_caps_amended "Pro" { features := [] }
    { features := ["a", "b", "c", "d", "e"] } [] [] [] []
    [String.mk (List.replicate 600 'x')]
  exact ⟨h.1, h.2.2.2.2.2.2.1, h.2.2.2.2.2.2.2 (by decide)⟩

/-! ## Three-tier extraction fallback (C5) -/

/-- C5: `extract_pricing` short-circuits at the first tier producing at
least one plan.  If the table tier yields a non-empty list, the result
is its deduplication and the cards and visual-columns tiers contribute
nothing (the result is the same for any replacement of them); if the
table tier is empty and the cards tier is non-empty, likewise the
visual-columns tier contributes nothing. -/
theorem extract_pricing_three_tier {α : Type}
    (tableTier cardsTier columnsTier cardsTier2 columnsTier2 : α → List EPlan)
    (findBillingNote : α → Option String) (soup : α) :
    (tableTier soup ≠ [] →
      extract_pricing tableTier cardsTier columnsTier findBillingNote soup =
        extract_pricing tableTier cardsTier2 columnsTier2 findBillingNote soup ∧
      (extract_pricing tableTier cardsTier columnsTier findBillingNote soup).plans =
        extract_pricing_dedup (tableTier soup)) ∧
    (tableTier soup = [] → cardsTier soup ≠ [] →
      extract_pricing tableTier cardsTier columnsTier findBillingNote soup =
        extract_pricing tableTier cardsTier columnsTier2 findBillingNote soup ∧
      (extract_pricing tableTier cardsTier columnsTier findBillingNote soup).plans =
        extract_pricing_dedup (cardsTier soup)) := by
  constructor
  · intro h
    have hne : (tableTier soup).isEmpty = false := List.isEmpty_eq_false.mpr h
    constructor <;> simp [extract_pricing, hne]
  · intro h1 h2
    have he : (tableTier soup).isEmpty = true := by simp [h1]
    have hne : (cardsTier soup).isEmpty = false := List.isEmpty_eq_false.mpr h2
    constructor <;> simp [extract_pricing, he, hne]

/-- Witness for `extract_pricing_three_tier`: a non-empty table tier
makes the other tiers irrelevant. -/
theorem extract_pricing_three_tier_witness :
    extract_pricing (α := Unit)
      (fun _ => [{ name := some "Basic", price := some "$5" }])
      (fun _ => [{ name := some "FromCards", price := some "$7" }])
      (fun _ => [{ name := some "FromColumns", price := some "$8" }])
      (fun _ => none) () =
      extract_pricing
        (fun _ => [{ name := some "Basic", price := some "$5" }])
        (fun _ => []) (fun _ => []) (fun _ => none) () ∧
    (extract_pricing (α := Unit)
      (fun _ => [{ name := some "Basic", price := some "$5" }])
      (fun _ => [{ name := some "FromCards", price := some "$7" }])
      (fun _ => [{ name := some "FromColumns", price := some "$8" }])
      (fun _ => none) ()).plans =
      extract_pricing_dedup [{ name := some "Basic", price := some "$5" }] := by
  have h := (extract_pricing_three_tier
    (fun _ => [{ name := some "Basic", price := some "$5" }])
    (fun _ => [{ name := some "FromCards", price := some "$7" }])
    (fun _ => [{ name := some "FromColumns", price := some "$8" }])
    (fun _ => []) (fun _ => []) (fun _ => none) ()).1 (by simp)
  exact h

/-! ## Deduplication invariants (C6) -/

theorem seenDedup_foldl {β κ : Type} [DecidableEq κ] (key : β → κ) :
    ∀ (xs : List β) (accL : List β) (seen seen2 : List κ),
    (∀ k, k ∈ seen ↔ k ∈ seen2) →
    (xs.foldl
      (fun acc p => if key p ∈ acc.2 then acc else (acc.1 ++ [p], acc.2 ++ [key p]))
      (accL, seen)).1 = accL ++ seenGo key seen2 xs := by
  intro xs
  induction xs with
  | nil => intro accL seen seen2 hiff; simp [seenGo]
  | cons p rest ih =>
    intro accL seen seen2 hiff
    simp only [List.foldl_cons, seenGo]
    by_cases hk : key p ∈ seen
    · rw [if_pos hk, if_pos ((hiff _).mp hk)]
      exact ih accL seen seen2 hiff
    · rw [if_neg hk, if_neg (fun h => hk ((hiff _).mpr h))]
      rw [ih (accL ++ [p]) (seen ++ [key p]) (key p :: seen2) ?_]
      · simp
      · intro k
        simp only [List.mem_append, List.mem_singleton, List.mem_cons, hiff k]
        tauto

theorem seenDedup_eq_go {β κ : Type} [DecidableEq κ] (key : β → κ) (xs : List β) :
    seenDedup key xs = seenGo key [] xs := by
  unfold seenDedup
  rw [seenDedup_foldl key xs [] [] [] (fun k => Iff.rfl)]
  simp

theorem seenGo_props {β κ : Type} [DecidableEq κ] (key : β → κ) :
    ∀ (xs : List β) (seen : List κ),
    ((seenGo key seen xs).map key).Nodup ∧
    (∀ q ∈ seenGo key seen xs, key q ∉ seen) := by
  intro xs
  induction xs with
  | nil => intro seen; simp [seenGo]
  | cons p rest ih =>
    intro seen
    simp only [seenGo]
    by_cases hk : key p ∈ seen
    · rw [if_pos hk]; exact ih seen
    · rw [if_neg hk]
      obtain ⟨ihnd, ihout⟩ := ih (key p :: seen)
      refine ⟨?_, ?_⟩
      · simp only [List.map_cons, List.nodup_cons]
        refine ⟨?_, ihnd⟩
        intro hmem
        rcases List.mem_map.mp hmem with ⟨q, hq, hkey⟩
        exact ihout q hq (hkey ▸ List.mem_cons_self _ _)
      · intro q hq
        rcases List.mem_cons.mp hq with rfl | hq2
        · exact hk
        · exact fun hqs => ihout q hq2 (List.mem_cons_of_mem _ hqs)

theorem seenGo_find {β κ : Type} [DecidableEq κ] (key : β → κ) :
    ∀ (xs : List β) (seen : List κ) (q : β), q ∈ seenGo key seen xs →
    xs.find? (fun r => decide (key r = key q)) = some q := by
  intro xs
  induction xs with
  | nil => intro seen q hq; simp [seenGo] at hq
  | cons p rest ih =>
    intro seen q hq
    simp only [seenGo] at hq
    by_cases hk : key p ∈ seen
    · rw [if_pos hk] at hq
      have hfind := ih seen q hq
      have hne : key p ≠ key q := by
        intro he
        exact (seenGo_props key rest seen).2 q hq (he ▸ hk)
      rw [List.find?_cons_of_neg _ (by simp [hne]), hfind]
    · rw [if_neg hk] at hq
      rcases List.mem_cons.mp hq with rfl | hq2
      · rw [List.find?_cons_of_pos _ (by simp)]
      · have hfind := ih (key p :: seen) q hq2
        have hne : key p ≠ key q := by
          intro he
          exact (seenGo_props key rest (key p :: seen)).2 q hq2
            (he ▸ List.mem_cons_self _ _)
        rw [List.find?_cons_of_neg _ (by simp [hne]), hfind]

theorem seenDedup_nodup {β κ : Type} [DecidableEq κ] (key : β → κ) (xs : List β) :
    ((seenDedup key xs).map key).Nodup := by
  rw [seenDedup_eq_go]; exact (seenGo_props key xs []).1

theorem seenDedup_find {β κ : Type} [DecidableEq κ] (key : β → κ) (xs : List β) :
    ∀ q ∈ seenDedup key xs, xs.find? (fun r => decide (key r = key q)) = some q := by
  rw [seenDedup_eq_go]
  exact fun q hq => seenGo_find key xs [] q hq

theorem dictInsert_fst {γ : Type} (d : List (String × γ)) (k : String) (v : γ) :
    (dictInsert d k v).map Prod.fst =
      if d.any (fun kv => kv.1 == k) then d.map Prod.fst
      else d.map Prod.fst ++ [k] := by
  unfold dictInsert
  split
  · rw [List.map_map]
    apply List.map_congr_left
    intro kv _
    by_cases h : (kv.1 == k) = true
    · simp only [Function.comp_apply, if_pos h]
      exact (eq_of_beq h).symm
    · have hne : kv.1 ≠ k := by simpa using h
      simp [Function.comp_apply, hne]
  · simp

theorem dictInsert_nodup {γ : Type} (d : List (String × γ)) (k : String) (v : γ)
    (hnd : (d.map Prod.fst).Nodup) : ((dictInsert d k v).map Prod.fst).Nodup := by
  rw [dictInsert_fst]
  split
  · exact hnd
  · rename_i hany
    rw [List.nodup_append]
    refine ⟨hnd, List.nodup_singleton k, ?_⟩
    intro x hx hk
    rcases List.mem_singleton.mp hk with rfl
    rcases List.mem_map.mp hx with ⟨kv, hkv, rfl⟩
    exact hany (List.any_eq_true.mpr ⟨kv, hkv, beq_self_eq_true kv.1⟩)

theorem dictInsert_mem {γ : Type} (d : List (String × γ)) (k : String) (v : γ) :
    ∀ kv ∈ dictInsert d k v, (kv.1 = k → kv = (k, v)) ∧ (kv.1 ≠ k → kv ∈ d) := by
  intro kv hkv
  unfold dictInsert at hkv
  split at hkv
  · rcases List.mem_map.mp hkv with ⟨kv0, hkv0, rfl⟩
    by_cases h : (kv0.1 == k) = true
    · rw [if_pos h]
      exact ⟨fun _ => rfl, fun hne => absurd rfl hne⟩
    · rw [if_neg h]
      exact ⟨fun he => absurd he (by simpa using h), fun _ => hkv0⟩
  · rename_i hany
    rcases List.mem_append.mp hkv with h | h
    · have hne : kv.1 ≠ k := by
        intro he
        exact hany (List.any_eq_true.mpr ⟨kv, h, by simp [he]⟩)
      exact ⟨fun he => absurd he hne, fun _ => h⟩
    · rcases List.mem_singleton.mp h with rfl
      exact ⟨fun _ => rfl, fun hne => absurd rfl hne⟩

/-- Values of the feature dict carry their key as their name, and the
record stored under a key is the last occurrence of that name. -/
theorem featDict_last :
    ∀ (fs : List Feature) (d : List (String × Feature)),
    (∀ kv ∈ d, kv.2.name = kv.1) →
    ∀ kv ∈ fs.foldl (fun d f => dictInsert d f.name f) d,
      kv.2.name = kv.1 ∧
      (fs.reverse.find? (fun r => decide (r.name = kv.1)) = some kv.2 ∨
        (kv ∈ d ∧ ∀ r ∈ fs, r.name ≠ kv.1)) := by
  intro fs
  induction fs with
  | nil =>
    intro d hd kv hkv
    exact ⟨hd kv hkv, Or.inr ⟨hkv, by simp⟩⟩
  | cons f rest ih =>
    intro d hd kv hkv
    rw [List.foldl_cons] at hkv
    have hd' : ∀ kv ∈ dictInsert d f.name f, kv.2.name = kv.1 := by
      intro kv0 hkv0
      by_cases he : kv0.1 = f.name
      · rw [((dictInsert_mem d f.name f kv0 hkv0).1 he)]
      · exact hd kv0 ((dictInsert_mem d f.name f kv0 hkv0).2 he)
    obtain ⟨hname, hrest⟩ := ih (dictInsert d f.name f) hd' kv hkv
    refine ⟨hname, ?_⟩
    rcases hrest with hfind | ⟨hmem, hnone⟩
    · left
      rw [List.reverse_cons, List.find?_append, hfind]
      rfl
    · by_cases he : f.name = kv.1
      · left
        have hkvf : kv = (f.name, f) :=
          (dictInsert_mem d f.name f kv hmem).1 he.symm
        rw [List.reverse_cons, List.find?_append]
        have hnonef : rest.reverse.find? (fun r => decide (r.name = kv.1)) = none := by
          rw [List.find?_eq_none]
          intro r hr
          simp only [decide_eq_true_eq]
          exact hnone r (List.mem_reverse.mp hr)
        rw [hnonef]
        simp only [Option.none_or]
        have hv : kv.2 = f := by rw [hkvf]
        rw [List.find?_cons_of_pos _ (by simp [he]), hv]
      · right
        refine ⟨(dictInsert_mem d f.name f kv hmem).2 (fun h => he h.symm), ?_⟩
        intro r hr
        rcases List.mem_cons.mp hr with rfl | hr2
        · exact he
        · exact hnone r hr2

theorem featDict_nodup :
    ∀ (fs : List Feature) (d : List (String × Feature)),
    (d.map Prod.fst).Nodup →
    ((fs.foldl (fun d f => dictInsert d f.name f) d).map Prod.fst).Nodup := by
  intro fs
  induction fs with
  | nil => intro d hd; exact hd
  | cons f rest ih =>
    intro d hd
    rw [List.foldl_cons]
    exact ih _ (dictInsert_nodup d f.name f hd)

theorem extract_features_dedup_props (fs : List Feature) :
    ((extract_features_dedup fs).map Feature.name).Nodup ∧
    ∀ q ∈ extract_features_dedup fs,
      fs.reverse.find? (fun r => decide (r.name = q.name)) = some q := by
  constructor
  · unfold extract_features_dedup
    rw [List.map_map]
    have hcong : ∀ kv ∈ fs.foldl (fun d f => dictInsert d f.name f) [],
        (Feature.name ∘ Prod.snd) kv = Prod.fst kv := by
      intro kv hkv
      exact (featDict_last fs [] (by simp) kv hkv).1
    rw [List.map_congr_left hcong]
    exact featDict_nodup fs [] (by simp)
  · intro q hq
    unfold extract_features_dedup at hq
    rcases List.mem_map.mp hq with ⟨kv, hkv, rfl⟩
    obtain ⟨hname, hfind⟩ := featDict_last fs [] (by simp) kv hkv
    rcases hfind with hfind | ⟨habs, _⟩
    · rw [hname]
      exact hfind
    · simp at habs

/-- C6 fails as stated for extractors.py `extract_features`: with two
features of the same name, the dict comprehension keeps the second
record, not the first occurrence. -/
theorem dedup_first_occurrence_counterexample :
    extract_features_dedup
      [{ name := "A", description := "first" },
       { name := "A", description := "second" }] =
      [{ name := "A", description := "second" }] ∧
    ({ name := "A", description := "second" } : Feature) ≠
      { name := "A", description := "first" } := by
  exact ⟨rfl, by decide⟩

/-- C6 (amended): every dedup stage leaves identity keys unique —
plans by `(name, price)` in both scraper.py and extractors.py,
features by `name` in both — and the seen-set dedups (both plan dedups
and scraper.py's feature dedup) preserve exactly the first occurrence
of each key; extractors.py's `extract_features` dict-comprehension
dedup keeps the first occurrence's position but retains the last
duplicate's record. -/
theorem dedup_unique_keys (plans : List Plan) (eplans : List EPlan)
    (features gs : List Feature) :
    (((extract_pricing_data_dedup plans).map planKey).Nodup ∧
      ∀ q ∈ extract_pricing_data_dedup plans,
        plans.find? (fun r => decide (planKey r = planKey q)) = some q) ∧
    (((extract_pricing_dedup eplans).map eplanKey).Nodup ∧
      ∀ q ∈ extract_pricing_dedup eplans,
        eplans.find? (fun r => decide (eplanKey r = eplanKey q)) = some q) ∧
    (((extract_features_data_dedup features).map Feature.name).Nodup ∧
      ∀ q ∈ extract_features_data_dedup features,
        features.find? (fun r => decide (Feature.name r = Feature.name q)) = some q) ∧
    (((extract_features_dedup gs).map Feature.name).Nodup ∧
      ∀ q ∈ extract_features_dedup gs,
        gs.reverse.find? (fun r => decide (r.name = q.name)) = some q) := by
  refine ⟨⟨seenDedup_nodup planKey plans, seenDedup_find planKey plans⟩,
    ⟨seenDedup_nodup eplanKey eplans, seenDedup_find eplanKey eplans⟩,
    ⟨seenDedup_nodup Feature.name features, seenDedup_find Feature.name features⟩,
    (extract_features_dedup_props gs).1, (extract_features_dedup_props gs).2⟩

/-- Witness for `dedup_unique_keys` on concrete duplicate-bearing
lists. -/
theorem dedup_unique_keys_witness :
    (((extract_pricing_data_dedup
        [{ name := some "Pro", price := some "$9" },
         { name := some "Pro", price := some "$9" },
         { name := some "Max", price := some "$20" }]).map planKey).Nodup) ∧
    ([{ name := some "Pro", price := some "$9" },
      { name := some "Pro", price := some "$9" },
      { name := some "Max", price := some "$20" }].find?
        (fun r => decide (planKey r =
          planKey { name := some "Pro", price := some "$9" })) =
      some { name := some "Pro", price := some "$9" }) := by
  have h := dedup_unique_keys
    [{ name := some "Pro", price := some "$9" },
     { name := some "Pro", price := some "$9" },
     { name := some "Max", price := some "$20" }] [] [] []
  exact ⟨h.1.1, h.1.2 { name := some "Pro", price := some "$9" } (by decide)⟩

/-! ## Fetching with retries (C7) -/

/-- The retry loop only consults the attempts it has fuel for. -/
theorem runRetriesGo_ext (cfg : RetryConfig) (a1 a2 : Nat → AttemptResult) :
    ∀ (fuel i : Nat) (sleeps : List Nat),
    (∀ j, j < i + fuel → a1 j = a2 j) →
    runRetriesGo cfg a1 fuel i sleeps = runRetriesGo cfg a2 fuel i sleeps := by
  intro fuel
  induction fuel with
  | zero => intro i sleeps h; rfl
  | succ n ih =>
    intro i sleeps h
    have hi : a2 i = a1 i := (h i (by omega)).symm
    cases hc : a1 i with
    | status c =>
      simp only [runRetriesGo, hi, hc]
      by_cases hmem : c ∈ cfg.status_forcelist
      · simp only [hmem, if_true]
        by_cases hn : n = 0
        · simp [hn]
        · simp only [hn, if_false]
          exact ih (i + 1) _ (fun j hj => h j (by omega))
      · simp [hmem]
    | connError =>
      simp only [runRetriesGo, hi, hc]
      by_cases hn : n = 0
      · simp [hn]
      · simp only [hn, if_false]
        exact ih (i + 1) _ (fun j hj => h j (by omega))

/-- If every attempt within the budget fails retryably, the loop
exhausts and errors. -/
theorem runRetriesGo_exhaust (cfg : RetryConfig) (attempts : Nat → AttemptResult) :
    ∀ (fuel i : Nat) (sleeps : List Nat),
    (∀ j, j < i + fuel → retryable cfg (attempts j) = true) →
    (runRetriesGo cfg attempts fuel i sleeps).1 = .error () := by
  intro fuel
  induction fuel with
  | zero => intro i sleeps h; rfl
  | succ n ih =>
    intro i sleeps h
    have hi := h i (by omega)
    cases hc : attempts i with
    | status c =>
      rw [hc] at hi
      simp only [retryable, decide_eq_true_eq] at hi
      simp only [runRetriesGo, hc, hi, if_true]
      by_cases hn : n = 0
      · simp [hn]
      · simp only [hn, if_false]
        exact ih (i + 1) _ (fun j hj => h j (by omega))
    | connError =>
      simp only [runRetriesGo, hc]
      by_cases hn : n = 0
      · simp [hn]
      · simp only [hn, if_false]
        exact ih (i + 1) _ (fun j hj => h j (by omega))

/-- C7: with the configured
`Retry(total=3, backoff_factor=1, status_forcelist=[429,500,502,503,504])`,
`fetch_page` never raises: a first response with a non-forcelisted
status is returned immediately (no retry), surfaced as `None` exactly
when `raise_for_status` would raise (4xx/5xx); if every attempt in the
budget (the initial request plus 3 retries) fails retryably, the result
is `None`; the outcome depends only on the first 4 attempts; and a
fully failing run performs the exponential backoff sleeps
`[1, 2, 4]`. -/
theorem fetch_page_retry_policy (attempts : Nat → AttemptResult) :
    (∀ c, attempts 0 = .status c → c ∉ sessionRetryConfig.status_forcelist →
      fetch_page sessionRetryConfig attempts =
        if 400 ≤ c ∧ c < 600 then none else some c) ∧
    ((∀ j, j ≤ 3 → retryable sessionRetryConfig (attempts j) = true) →
      fetch_page sessionRetryConfig attempts = none) ∧
    (∀ attempts2 : Nat → AttemptResult, (∀ j, j ≤ 3 → attempts2 j = attempts j) →
      fetch_page sessionRetryConfig attempts2 = fetch_page sessionRetryConfig attempts) ∧
    runRetries sessionRetryConfig (fun _ => AttemptResult.status 503) =
      (.error (), [1, 2, 4]) := by
  have h4 : sessionRetryConfig.total + 1 = 4 := rfl
  refine ⟨?_, ?_, ?_, rfl⟩
  · intro c h0 hnot
    unfold fetch_page runRetries
    rw [h4]
    simp only [runRetriesGo, h0]
    rw [if_neg hnot]
  · intro hall
    unfold fetch_page runRetries
    rw [h4, runRetriesGo_exhaust sessionRetryConfig attempts 4 0 []
      (fun j hj => hall j (by omega))]
  · intro a2 h
    unfold fetch_page runRetries
    rw [h4, runRetriesGo_ext sessionRetryConfig a2 attempts 4 0 []
      (fun j hj => h j (by omega))]

/-- Witness for `fetch_page_retry_policy`: a 404 is not retried and
surfaces as `None`; persistent 503s exhaust the budget and surface as
`None`. -/
theorem fetch_page_retry_policy_witness :
    fetch_page sessionRetryConfig (fun _ => AttemptResult.status 404) = none ∧
    fetch_page sessionRetryConfig (fun _ => AttemptResult.status 503) = none := by
  constructor
  · have h := (fetch_page_retry_policy (fun _ => AttemptResult.status 404)).1
      404 rfl (by decide)
    simpa using h
  · exact (fetch_page_retry_policy (fun _ => AttemptResult.status 503)).2.1
      (fun j hj => by decide)

/-! ## scrape_page and the orchestrator (C1, C2) -/

/-- C1: re-scraping a page whose newly computed fingerprint equals the
latest stored snapshot's fingerprint saves a fresh snapshot (with the
new timestamp), records no ChangeEvent, returns `False` — for any
describers, which are therefore never consulted — and contributes 0 to
the change count of `scrape_all_competitors`. -/
theorem unchanged_rescrape_no_change (ds : Describers) (db : CompetitorDB)
    (name : String) (cfg : PageConfig) (resp : Response) (now : Nat) (prev : Snapshot)
    (hprev : db.get_latest_snapshot name cfg.url = some prev)
    (hhash : prev.content_hash = contentHashOf resp.structured) :
    scrape_page ds db name cfg (some resp) now =
      ({ snapshots := db.snapshots ++ [mkSnapshot name cfg resp now],
         changes := db.changes }, false) ∧
    ∀ rest : List ScrapeTask,
      (scrape_all_competitors ds db
        ({ competitor_name := name, page := cfg, response := some resp } :: rest)
        now).2 =
      (scrape_all_competitors ds
        (db.save_snapshot (mkSnapshot name cfg resp now)) rest now).2 := by
  have h1 : scrape_page ds db name cfg (some resp) now =
      (db.save_snapshot (mkSnapshot name cfg resp now), false) := by
    simp only [scrape_page, hprev, hhash, beq_self_eq_true, if_true]
  refine ⟨by rw [h1]; rfl, ?_⟩
  intro rest
  simp [scrape_all_competitors, List.foldl_cons, h1]

/-- Witness for `unchanged_rescrape_no_change` on a one-snapshot
store. -/
theorem unchanged_rescrape_no_change_witness :
    scrape_page theDescribers
      ⟨[mkSnapshot "Acme" ⟨"https://x/p", "pricing", ""⟩ ⟨200, Structured.pricing []⟩ 1], []⟩
      "Acme" ⟨"https://x/p", "pricing", ""⟩ (some ⟨200, Structured.pricing []⟩) 2 =
      (⟨[mkSnapshot "Acme" ⟨"https://x/p", "pricing", ""⟩ ⟨200, Structured.pricing []⟩ 1] ++
        [mkSnapshot "Acme" ⟨"https://x/p", "pricing", ""⟩ ⟨200, Structured.pricing []⟩ 2],
        []⟩, false) :=
  (unchanged_rescrape_no_change theDescribers
    ⟨[mkSnapshot "Acme" ⟨"https://x/p", "pricing", ""⟩ ⟨200, Structured.pricing []⟩ 1], []⟩
    "Acme" ⟨"https://x/p", "pricing", ""⟩ ⟨200, Structured.pricing []⟩ 2
    (mkSnapshot "Acme" ⟨"https://x/p", "pricing", ""⟩ ⟨200, Structured.pricing []⟩ 1)
    rfl rfl).1

/-- C2: on a page with no prior snapshot, a successful `scrape_page`
saves a baseline snapshot, records no ChangeEvent and returns `False`,
and the result is the same for any describers (so no `describe_*`
function is consulted); moreover the change table grows only when a
prior snapshot existed whose fingerprint differs from the new one. -/
theorem first_scrape_baseline (ds ds2 : Describers) (db : CompetitorDB)
    (name : String) (cfg : PageConfig) (resp : Response) (now : Nat) :
    (db.get_latest_snapshot name cfg.url = none →
      scrape_page ds db name cfg (some resp) now =
        ({ snapshots := db.snapshots ++ [mkSnapshot name cfg resp now],
           changes := db.changes }, false) ∧
      scrape_page ds db name cfg (some resp) now =
        scrape_page ds2 db name cfg (some resp) now) ∧
    ((scrape_page ds db name cfg (some resp) now).1.changes ≠ db.changes →
      ∃ prev, db.get_latest_snapshot name cfg.url = some prev ∧
        prev.content_hash ≠ contentHashOf resp.structured) := by
  constructor
  · intro hnone
    have h1 : ∀ ds' : Describers, scrape_page ds' db name cfg (some resp) now =
        (db.save_snapshot (mkSnapshot name cfg resp now), false) := by
      intro ds'
      simp only [scrape_page, hnone]
    exact ⟨by rw [h1 ds]; rfl, by rw [h1 ds, h1 ds2]⟩
  · intro hch
    cases hp : db.get_latest_snapshot name cfg.url with
    | none =>
      exfalso
      apply hch
      simp only [scrape_page, hp, CompetitorDB.save_snapshot]
    | some prev =>
      by_cases hh : prev.content_hash = contentHashOf resp.structured
      · exfalso
        apply hch
        simp only [scrape_page, hp, hh, beq_self_eq_true, if_true,
          CompetitorDB.save_snapshot]
      · exact ⟨prev, rfl, hh⟩

/-- Witness for `first_scrape_baseline` on an empty store. -/
theorem first_scrape_baseline_witness :
    scrape_page theDescribers ⟨[], []⟩ "Acme" ⟨"https://x/p", "pricing", ""⟩
      (some ⟨200, Structured.pricing []⟩) 1 =
      (⟨[] ++ [mkSnapshot "Acme" ⟨"https://x/p", "pricing", ""⟩
        ⟨200, Structured.pricing []⟩ 1], []⟩, false) :=
  ((first_scrape_baseline theDescribers theDescribers ⟨[], []⟩ "Acme"
    ⟨"https://x/p", "pricing", ""⟩ ⟨200, Structured.pricing []⟩ 1).1 rfl).1

end Scrape
